import Mathlib

/-!
Shallow embedding of `msal_extensions` (token_cache.py, filelock.py).

Stateful Python code is modelled as pure functions over an explicit
environment describing the outcome of every external call made during one
operation (backend `time_last_modified` / `load` / `save`, the in-memory
cache's `deserialize` / `modify` / `serialize` / `find`, the two reads of
`time.time()`), returning the result, the new cache state and a trace of
the calls performed.  Timestamps are rationals (Unix times).
-/

namespace MsalExt

/-- Exceptions that can cross the boundaries modelled here.
`persistenceNotFound` is the backend's "not found" signal; `lockError` is
raised by `CrossPlatLock`; `osError` carries an errno from `os.remove`;
`other` stands for any further exception (decryption failure, I/O error...). -/
inductive Err where
  | persistenceNotFound
  | lockError (msg : String)
  | osError (errno : Nat)
  | other (msg : String)
deriving DecidableEq, Repr

/-- Trace events: one event is recorded at the moment the corresponding
call is made (whether or not it then raises). -/
inductive Event where
  | getTimeLastModified
  | loadEv
  | deserializeEv
  | setLastSyncEv (t : ℚ)
  | memModifyEv
  | serializeEv
  | saveEv
  | lockAcquireEv
  | lockReleaseEv
  | sleepEv (seconds : ℚ)
  | memFindEv
deriving DecidableEq, Repr

/-- The mutable state of a `PersistedTokenCache` instance: the in-memory
cache snapshot (type `M`, owned by the `msal.SerializableTokenCache` base
class) and `_last_sync`, a Unix time. -/
structure CacheState (M : Type) where
  mem : M
  lastSync : ℚ
deriving DecidableEq, Repr

/-- `self._last_sync = 0` in `PersistedTokenCache.__init__`: a fresh
instance starts with `last_sync = 0` and the given in-memory snapshot. -/
def initialCacheState {M : Type} (m : M) : CacheState M :=
  { mem := m, lastSync := 0 }

/-- Environment for one operation: the behaviour of every external call it
may perform.  `now` is the value `time.time()` returns inside
`_reload_if_necessary` (line 59); `now2` is the value it returns at the end
of `modify` (line 73).  `acquire` is the outcome of `CrossPlatLock.__enter__`
and `removeErrno` the outcome of `os.remove` in `CrossPlatLock.__exit__`
(`none` = removed fine, `some e` = `OSError` with errno `e`). -/
structure Env (M : Type) where
  timeLastModified : Except Err ℚ
  load : Except Err String
  deserialize : String → Except Err M
  memModify : M → Except Err M
  serialize : M → Except Err String
  save : String → Except Err Unit
  now : ℚ
  now2 : ℚ
  acquire : Except Err Unit
  removeErrno : Option Nat

/-- Result of one `_reload_if_necessary` call. -/
structure ReloadOut (M : Type) where
  result : Except Err Unit
  state : CacheState M
  trace : List Event
deriving Repr

/-- `PersistedTokenCache._reload_if_necessary` (token_cache.py lines 53-63):
```
try:
    if self._last_sync < self._persistence.time_last_modified():
        self.deserialize(self._persistence.load())
        self._last_sync = time.time()
except PersistenceNotFound:
    pass
```
The `try` block spans all three external calls, so a `PersistenceNotFound`
raised by any of them is swallowed; any other exception propagates with the
state as it was at the point of the raise. -/
def reloadIfNecessary {M : Type} (env : Env M) (s : CacheState M) : ReloadOut M :=
  match env.timeLastModified with
  | .error e =>
    if e = .persistenceNotFound then ⟨.ok (), s, [.getTimeLastModified]⟩
    else ⟨.error e, s, [.getTimeLastModified]⟩
  | .ok tlm =>
    if s.lastSync < tlm then
      match env.load with
      | .error e =>
        if e = .persistenceNotFound then ⟨.ok (), s, [.getTimeLastModified, .loadEv]⟩
        else ⟨.error e, s, [.getTimeLastModified, .loadEv]⟩
      | .ok data =>
        match env.deserialize data with
        | .error e =>
          if e = .persistenceNotFound then
            ⟨.ok (), s, [.getTimeLastModified, .loadEv, .deserializeEv]⟩
          else ⟨.error e, s, [.getTimeLastModified, .loadEv, .deserializeEv]⟩
        | .ok m =>
          ⟨.ok (), { mem := m, lastSync := env.now },
            [.getTimeLastModified, .loadEv, .deserializeEv, .setLastSyncEv env.now]⟩
    else ⟨.ok (), s, [.getTimeLastModified]⟩

/-- Linux errno for "No such file or directory". -/
def ENOENT : Nat := 2

/-- Linux errno for "Permission denied". -/
def EACCES : Nat := 13

/-- `CrossPlatLock.__exit__` (filelock.py lines 52-61): attempt
`os.remove(self._lockpath)`; swallow an `OSError` whose errno is `ENOENT`
or `EACCES` (log only), re-raise any other `OSError`. -/
def crossPlatLockExit (removeErrno : Option Nat) : Except Err Unit :=
  match removeErrno with
  | none => .ok ()
  | some e =>
    if e = ENOENT ∨ e = EACCES then .ok ()
    else .error (.osError e)

/-- Result of one `modify` call.  `bodyResult` is the outcome of the `with`
block's body (reload, in-memory modify, serialize, save, `_last_sync`
assignment); `result` is the overall outcome after `__exit__` ran. -/
structure ModifyOut (M : Type) where
  result : Except Err Unit
  bodyResult : Except Err Unit
  state : CacheState M
  trace : List Event
deriving Repr

/-- Python `with` semantics for the tail of `modify`: run `__exit__`
whatever the body did; an exception raised by `__exit__` replaces the
overall outcome. -/
def finishWithExit {M : Type} (env : Env M) (bodyResult : Except Err Unit)
    (s : CacheState M) (tr : List Event) : ModifyOut M :=
  match crossPlatLockExit env.removeErrno with
  | .ok _ => ⟨bodyResult, bodyResult, s, tr ++ [.lockReleaseEv]⟩
  | .error e2 => ⟨.error e2, bodyResult, s, tr ++ [.lockReleaseEv]⟩

/-- `PersistedTokenCache.modify` (token_cache.py lines 65-73):
```
with CrossPlatLock(self._lock_location):
    self._reload_if_necessary()
    super().modify(credential_type, old_entry, new_key_value_pairs=...)
    self._persistence.save(self.serialize())
    self._last_sync = time.time()
```
If `__enter__` raises, the body never runs and `__exit__` is not called.
Once the lock is acquired, `__exit__` (lock-file removal) runs on every
exit path of the body. -/
def modify {M : Type} (env : Env M) (s : CacheState M) : ModifyOut M :=
  match env.acquire with
  | .error e => ⟨.error e, .error e, s, [.lockAcquireEv]⟩
  | .ok _ =>
    let r := reloadIfNecessary env s
    let tr0 := [Event.lockAcquireEv] ++ r.trace
    match r.result with
    | .error e => finishWithExit env (.error e) r.state tr0
    | .ok _ =>
      match env.memModify r.state.mem with
      | .error e => finishWithExit env (.error e) r.state (tr0 ++ [.memModifyEv])
      | .ok m2 =>
        let s2 : CacheState M := { mem := m2, lastSync := r.state.lastSync }
        match env.serialize m2 with
        | .error e =>
          finishWithExit env (.error e) s2 (tr0 ++ [.memModifyEv, .serializeEv])
        | .ok data =>
          match env.save data with
          | .error e =>
            finishWithExit env (.error e) s2
              (tr0 ++ [.memModifyEv, .serializeEv, .saveEv])
          | .ok _ =>
            finishWithExit env (.ok ())
              { mem := m2, lastSync := env.now2 }
              (tr0 ++ [.memModifyEv, .serializeEv, .saveEv, .setLastSyncEv env.now2])

/-- How a `find` call ended: `delegated` is a normal return of
`super().find(...)`, `raised` a propagated exception, `fallback` the
trailing `return []` after the retry loop. -/
inductive FindResult (R : Type) where
  | delegated (entries : List R)
  | raised (e : Err)
  | fallback
deriving DecidableEq, Repr

/-- Result of one `find` call, with the number of `_reload_if_necessary`
attempts made and the number of 0.5 s sleeps performed. -/
structure FindOut (M R : Type) where
  result : FindResult R
  state : CacheState M
  attempts : Nat
  sleeps : Nat
  trace : List Event
deriving Repr

/-- `retry = 3` in `PersistedTokenCache.find`. -/
def findRetry : Nat := 3

/-- The `for attempt in range(1, retry + 1)` loop of
`PersistedTokenCache.find` (token_cache.py lines 77-90), with `fuel` the
number of loop iterations left and `attempt` the 1-based iteration index.
Each attempt uses the environment `envs attempt` (external world at the
time of that attempt).  On a reload failure the code sleeps 0.5 s and
retries while `attempt < retry`, re-raises on the last attempt, and falls
through to `return []` only if the range is exhausted. -/
def findGo {M R : Type} (envs : Nat → Env M) (memFind : M → List R) :
    Nat → Nat → CacheState M → FindOut M R
  | 0, _, s => ⟨.fallback, s, 0, 0, []⟩
  | fuel + 1, attempt, s =>
    let r := reloadIfNecessary (envs attempt) s
    match r.result with
    | .ok _ =>
      ⟨.delegated (memFind r.state.mem), r.state, 1, 0, r.trace ++ [.memFindEv]⟩
    | .error e =>
      if attempt < findRetry then
        let rest := findGo envs memFind fuel (attempt + 1) r.state
        ⟨rest.result, rest.state, rest.attempts + 1, rest.sleeps + 1,
          r.trace ++ [.sleepEv (1/2)] ++ rest.trace⟩
      else ⟨.raised e, r.state, 1, 0, r.trace⟩

/-- `PersistedTokenCache.find` (token_cache.py lines 75-90): optimistic
read path, up to `retry = 3` reload attempts starting at attempt 1. -/
def find {M R : Type} (envs : Nat → Env M) (memFind : M → List R)
    (s : CacheState M) : FindOut M R :=
  findGo envs memFind findRetry 1 s

/-- Outcome of `CrossPlatLock._create_lock_file`: `success k` means the
exclusive creation succeeded on the `k`-th attempt (so `k` attempts were
made in total); `lockError msg` models `raise LockError(msg)`. -/
inductive LockResult where
  | success (attemptsMade : Nat)
  | lockError (msg : String)
deriving DecidableEq, Repr

/-- `timeout = 5` (seconds) in `_create_lock_file`. -/
def lockTimeout : ℚ := 5

/-- `check_interval = 0.25` (seconds) in `_create_lock_file`. -/
def checkInterval : ℚ := 1/4

/-- The `LockError` message raised when the deadline elapses
(filelock.py lines 45-50, with `timeout = 5` formatted in). -/
def lockErrorMessage (path : String) : String :=
  "Unable to obtain lock, despite trying for 5 second(s). " ++
    "You may want to manually remove the stale lock file " ++ path

/-- The `while timeout_end > current_time()` loop of
`CrossPlatLock._create_lock_file` (filelock.py lines 28-50).
`fileExists k` tells whether the `k`-th `open(..., 'xb')` (0-based) hits an
existing file (`FileExistsError`); on that conflict the process sleeps
`check_interval` seconds, so the `k`-th attempt happens at time
`t0 + checkInterval * k` where `t0` is the clock value read when
`timeout_end = current_time() + timeout` was computed, just before the
first attempt.  Returns the outcome and the list of attempt times.
`fuel` only bounds the recursion; the deadline check allows at most 20
iterations (`t0 + 5 > t0 + (1/4)*k` iff `k < 20`), so with the initial
fuel of 21 the fuel-exhaustion branch is dead code. -/
def createLockFileGo (fileExists : Nat → Bool) (t0 : ℚ) (path : String) :
    Nat → Nat → LockResult × List ℚ
  | 0, _ => (.lockError (lockErrorMessage path), [])
  | fuel + 1, k =>
    if t0 + lockTimeout > t0 + checkInterval * k then
      if fileExists k then
        let rest := createLockFileGo fileExists t0 path fuel (k + 1)
        (rest.1, (t0 + checkInterval * k) :: rest.2)
      else (.success (k + 1), [t0 + checkInterval * k])
    else (.lockError (lockErrorMessage path), [])

/-- `CrossPlatLock._create_lock_file`, started at clock value `t0` with
attempt index 0. -/
def createLockFile (fileExists : Nat → Bool) (t0 : ℚ) (path : String) :
    LockResult × List ℚ :=
  createLockFileGo fileExists t0 path 21 0

/-!
Two-process interleaving model for the `modify` write path.

Each process runs `modify` once, as the atomic steps `acquire` (the
exclusive creation of the lock file succeeding), then `reload`, `mutate`,
`save` (the reload-mutate-save sequence performed while holding the lock),
then `release` (removing the lock file).  The shared state is whether the
lock file exists; `acquire` is enabled only when it does not, which is
exactly the atomicity the filesystem's exclusive-create (`open 'xb'`)
provides.  A process whose acquisition times out simply never steps.
-/

/-- Program counter meanings: 0 = not started; 1 = holding the lock,
nothing done yet; 2 = reload done; 3 = mutate done; 4 = save done (still
holding); 5 = released, finished. -/
structure Sys where
  lock : Bool
  p0 : Nat
  p1 : Nat
deriving DecidableEq, Repr

/-- The atomic actions of one `modify` call. -/
inductive Act where
  | acquire
  | reload
  | mutate
  | save
  | release
deriving DecidableEq, Repr

/-- The critical-section actions: the reload-mutate-save sequence. -/
def isCS : Act → Bool
  | .reload => true
  | .mutate => true
  | .save => true
  | _ => false

/-- A label: which process (identified by a `Bool`) performs which action. -/
abbrev Lbl := Bool × Act

/-- Program counter of process `i`. -/
def pcOf (s : Sys) (i : Bool) : Nat :=
  if i then s.p1 else s.p0

/-- Set the program counter of process `i`. -/
def setPc (s : Sys) (i : Bool) (v : Nat) : Sys :=
  if i then { s with p1 := v } else { s with p0 := v }

/-- One atomic step: `some` of the next state when the action is enabled,
`none` otherwise. -/
def stepFn (s : Sys) (l : Lbl) : Option Sys :=
  match l.2 with
  | .acquire =>
    if pcOf s l.1 = 0 ∧ s.lock = false then some { setPc s l.1 1 with lock := true }
    else none
  | .reload => if pcOf s l.1 = 1 then some (setPc s l.1 2) else none
  | .mutate => if pcOf s l.1 = 2 then some (setPc s l.1 3) else none
  | .save => if pcOf s l.1 = 3 then some (setPc s l.1 4) else none
  | .release =>
    if pcOf s l.1 = 4 then some { setPc s l.1 5 with lock := false }
    else none

/-- Run a sequence of labelled steps; `none` if some step is not enabled. -/
def run (s : Sys) : List Lbl → Option Sys
  | [] => some s
  | l :: ls =>
    match stepFn s l with
    | none => none
    | some s2 => run s2 ls

/-- Initially the lock file does not exist and neither call has started. -/
def initSys : Sys := ⟨false, 0, 0⟩

/-- The processes performing the critical-section (reload/mutate/save)
events of a trace, in order. -/
def csprocs (tr : List Lbl) : List Bool :=
  (tr.filter fun l => isCS l.2).map Prod.fst

/-- Process `i` currently holds the lock (it acquired and has not yet
released). -/
def Holds (s : Sys) (i : Bool) : Prop :=
  1 ≤ pcOf s i ∧ pcOf s i ≤ 4

/-- How many critical-section events a process with program counter `pc`
has emitted so far. -/
def ccOf : Nat → Nat
  | 0 => 0
  | 1 => 0
  | 2 => 1
  | 3 => 2
  | _ => 3

/-- Inductive invariant: program counters bounded, the lock file exists
iff some process holds the lock, and at most one process holds it. -/
def LockInv (s : Sys) : Prop :=
  pcOf s false ≤ 5 ∧ pcOf s true ≤ 5 ∧
    (s.lock = true ↔ (Holds s false ∨ Holds s true)) ∧
    ¬(Holds s false ∧ Holds s true)

/-- The critical-section events emitted so far form two blocks, one per
process, consistent with the program counters; if the second block is
nonempty, the first block's owner has already finished. -/
def BlockyCS (cs : List Bool) (s : Sys) : Prop :=
  ∃ f : Bool,
    cs = List.replicate (ccOf (pcOf s f)) f ++ List.replicate (ccOf (pcOf s (!f))) (!f)
      ∧ (0 < ccOf (pcOf s (!f)) → pcOf s f = 5)

/-!  Helper lemmas about `reloadIfNecessary`.  -/

/-- Structure of a `_reload_if_necessary` outcome: either it propagates an
exception and leaves the state untouched, or it returns normally, leaving
the state untouched or replacing it by freshly deserialized contents with
`lastSync = env.now`. -/
theorem reload_shape {M : Type} (env : Env M) (s : CacheState M) :
    (∃ e, (reloadIfNecessary env s).result = .error e ∧ (reloadIfNecessary env s).state = s) ∨
      ((reloadIfNecessary env s).result = .ok () ∧
        ((reloadIfNecessary env s).state = s ∨
          ∃ m, (reloadIfNecessary env s).state = ({ mem := m, lastSync := env.now } : CacheState M))) := by
  unfold reloadIfNecessary
  cases ht : env.timeLastModified with
  | error e1 => by_cases he : e1 = .persistenceNotFound <;> simp [he]
  | ok tlm =>
    by_cases hlt : s.lastSync < tlm
    · simp only [if_pos hlt]
      cases hl : env.load with
      | error e2 => by_cases he : e2 = .persistenceNotFound <;> simp [hl, he]
      | ok data =>
        cases hd : env.deserialize data with
        | error e3 => by_cases he : e3 = .persistenceNotFound <;> simp [hl, hd, he]
        | ok m => simp [hl, hd]
    · simp [hlt]

/-- A `_reload_if_necessary` call that propagates an exception leaves the
cache state (in-memory snapshot and `last_sync`) untouched. -/
theorem reload_error_state {M : Type} (env : Env M) (s : CacheState M) (e : Err)
    (h : (reloadIfNecessary env s).result = .error e) :
    (reloadIfNecessary env s).state = s := by
  rcases reload_shape env s with ⟨e2, _, hst⟩ | ⟨hok, _⟩
  · exact hst
  · rw [hok] at h
    exact absurd h (by simp)

/-- After `_reload_if_necessary`, `last_sync` is either unchanged or equal
to the `time.time()` value read during the call. -/
theorem reload_lastSync_cases {M : Type} (env : Env M) (s : CacheState M) :
    (reloadIfNecessary env s).state.lastSync = s.lastSync ∨
      (reloadIfNecessary env s).state.lastSync = env.now := by
  rcases reload_shape env s with ⟨_, _, hst⟩ | ⟨_, hst | ⟨m, hst⟩⟩ <;>
    simp [hst]

/-!  Concrete environments used by the witnesses below.  -/

/-- A fully successful environment over `M = Nat`: the backend was last
modified at Unix time 10, holds payload "d" which deserializes to the
snapshot `7`, mutation increments the snapshot, the clock reads 11 during
the reload and 12 at the end of `modify`, and the lock file is acquired
and removed without incident. -/
def envA : Env Nat where
  timeLastModified := .ok 10
  load := .ok "d"
  deserialize := fun _ => .ok 7
  memModify := fun m => .ok (m + 1)
  serialize := fun _ => .ok "ser"
  save := fun _ => .ok ()
  now := 11
  now2 := 12
  acquire := .ok ()
  removeErrno := none

/-- Like `envA`, but the backend has never been created:
`time_last_modified` raises `PersistenceNotFound`. -/
def envNotFound : Env Nat :=
  { envA with timeLastModified := .error .persistenceNotFound }

/-- Like `envA`, but `load` raises `PersistenceNotFound` (the persistence
was deleted between the timestamp check and the read). -/
def envLoadMissing : Env Nat :=
  { envA with load := .error .persistenceNotFound }

/-- Like `envA`, but `save` raises. -/
def envSaveFails : Env Nat :=
  { envA with save := fun _ => .error (.other "boom") }

/-- C4: a `_reload_if_necessary` call loads, deserializes and sets
`last_sync := time.time()` exactly when the backend's
`time_last_modified()` is strictly greater than `last_sync` (given that
those calls succeed); when `last_sync ≥ time_last_modified()`, `load()` is
never called and the state is returned unchanged. -/
theorem reload_if_necessary_spec {M : Type} (env : Env M) (s : CacheState M) :
    (∀ tlm data m, env.timeLastModified = .ok tlm → s.lastSync < tlm →
      env.load = .ok data → env.deserialize data = .ok m →
      reloadIfNecessary env s =
        ⟨.ok (), { mem := m, lastSync := env.now },
          [.getTimeLastModified, .loadEv, .deserializeEv, .setLastSyncEv env.now]⟩) ∧
    (∀ tlm, env.timeLastModified = .ok tlm → tlm ≤ s.lastSync →
      reloadIfNecessary env s = ⟨.ok (), s, [.getTimeLastModified]⟩ ∧
        Event.loadEv ∉ (reloadIfNecessary env s).trace) := by
  constructor
  · intro tlm data m htlm hlt hload hdeser
    simp [reloadIfNecessary, htlm, hlt, hload, hdeser]
  · intro tlm htlm hle
    have hnot : ¬ s.lastSync < tlm := not_lt.mpr hle
    have heq : reloadIfNecessary env s = ⟨.ok (), s, [.getTimeLastModified]⟩ := by
      simp [reloadIfNecessary, htlm, hnot]
    exact ⟨heq, by rw [heq]; simp⟩

/-- C4 witness: with `envA` (backend newer than `last_sync = 0`) the
reload happens and sets `last_sync` to 11; with `last_sync = 20 ≥ 10` the
call is a no-op and never calls `load()`. -/
theorem reload_if_necessary_spec_witness :
    reloadIfNecessary envA (initialCacheState 0) =
      ⟨.ok (), { mem := 7, lastSync := 11 },
        [.getTimeLastModified, .loadEv, .deserializeEv, .setLastSyncEv 11]⟩ ∧
    (reloadIfNecessary envA ({ mem := 0, lastSync := 20 } : CacheState Nat) =
        ⟨.ok (), { mem := 0, lastSync := 20 }, [.getTimeLastModified]⟩ ∧
      Event.loadEv ∉ (reloadIfNecessary envA ({ mem := 0, lastSync := 20 } : CacheState Nat)).trace) := by
  constructor
  · exact (reload_if_necessary_spec envA (initialCacheState 0)).1 10 "d" 7 rfl
      (by norm_num [initialCacheState, envA]) rfl rfl
  · exact (reload_if_necessary_spec envA { mem := 0, lastSync := 20 }).2 10 rfl
      (by norm_num [envA])

/-- C6: `CrossPlatLock.__exit__` deletes the lock file; a deletion failure
with errno `ENOENT` or `EACCES` is swallowed and the release returns
normally; any other OS-level deletion failure propagates. -/
theorem lock_release_spec :
    crossPlatLockExit none = .ok () ∧
    crossPlatLockExit (some ENOENT) = .ok () ∧
    crossPlatLockExit (some EACCES) = .ok () ∧
    ∀ e : Nat, e ≠ ENOENT → e ≠ EACCES →
      crossPlatLockExit (some e) = .error (.osError e) := by
  refine ⟨rfl, rfl, rfl, fun e h1 h2 => ?_⟩
  simp [crossPlatLockExit, h1, h2]

/-- C6 witness: errno 28 (`ENOSPC`, neither `ENOENT` nor `EACCES`)
propagates as an `OSError`. -/
theorem lock_release_spec_witness :
    crossPlatLockExit (some 28) = .error (.osError 28) :=
  lock_release_spec.2.2.2 28 (by decide) (by decide)

/-- C7: when the backend signals `PersistenceNotFound` (from
`time_last_modified()` or from `load()`), `_reload_if_necessary` returns
normally with the state untouched, and a `find` call in such an
environment returns the in-memory lookup result on its first attempt —
the absence of a persisted store is never surfaced as an error. -/
theorem reload_notFound_spec {M R : Type} (envs : Nat → Env M)
    (memFind : M → List R) (env : Env M) (s : CacheState M) :
    (env.timeLastModified = .error .persistenceNotFound →
      reloadIfNecessary env s = ⟨.ok (), s, [.getTimeLastModified]⟩) ∧
    (∀ tlm, env.timeLastModified = .ok tlm → s.lastSync < tlm →
      env.load = .error .persistenceNotFound →
      reloadIfNecessary env s = ⟨.ok (), s, [.getTimeLastModified, .loadEv]⟩) ∧
    ((envs 1).timeLastModified = .error .persistenceNotFound →
      (find envs memFind s).result = .delegated (memFind s.mem) ∧
        (find envs memFind s).attempts = 1) := by
  refine ⟨fun h => ?_, fun tlm htlm hlt hload => ?_, fun h => ?_⟩
  · simp [reloadIfNecessary, h]
  · simp [reloadIfNecessary, htlm, hlt, hload]
  · have hre : reloadIfNecessary (envs 1) s = ⟨.ok (), s, [.getTimeLastModified]⟩ := by
      simp [reloadIfNecessary, h]
    show (findGo envs memFind (2+1) 1 s).result = _ ∧ (findGo envs memFind (2+1) 1 s).attempts = 1
    rw [findGo, hre]
    simp

/-- C7 witness: with a never-created backend (`envNotFound`), the reload
is a no-op success and `find` (same environment at every attempt)
delegates to the in-memory lookup on attempt 1. -/
theorem reload_notFound_spec_witness :
    (reloadIfNecessary envNotFound (initialCacheState 3) =
      ⟨.ok (), initialCacheState 3, [.getTimeLastModified]⟩) ∧
    (reloadIfNecessary envLoadMissing (initialCacheState 3) =
      ⟨.ok (), initialCacheState 3, [.getTimeLastModified, .loadEv]⟩) ∧
    ((find (fun _ => envNotFound) (fun m => [m]) (initialCacheState 3)).result =
        .delegated [3] ∧
      (find (fun _ => envNotFound) (fun m => [m]) (initialCacheState 3)).attempts = 1) := by
  refine ⟨?_, ?_, ?_⟩
  · exact (reload_notFound_spec (fun _ => envNotFound) (fun m => [m]) envNotFound
      (initialCacheState 3)).1 rfl
  · exact (reload_notFound_spec (fun _ => envLoadMissing) (fun m => [m]) envLoadMissing
      (initialCacheState 3)).2.1 10 rfl (by norm_num [initialCacheState, envLoadMissing, envA]) rfl
  · exact (reload_notFound_spec (fun _ => envNotFound) (fun m => [m]) envNotFound
      (initialCacheState 3)).2.2 rfl

/-- `__exit__` always runs once the `with` body is entered: it appends the
release attempt to the trace, leaves the cache state alone and preserves
the body's outcome in `bodyResult`. -/
theorem finishWithExit_shape {M : Type} (env : Env M) (b : Except Err Unit)
    (s : CacheState M) (tr : List Event) :
    (finishWithExit env b s tr).trace = tr ++ [.lockReleaseEv] ∧
      (finishWithExit env b s tr).state = s ∧
      (finishWithExit env b s tr).bodyResult = b := by
  unfold finishWithExit
  cases h : crossPlatLockExit env.removeErrno <;> simp

/-- Projection form of `finishWithExit_shape`, for rewriting. -/
theorem finishWithExit_trace_eq {M : Type} (env : Env M) (b : Except Err Unit)
    (s : CacheState M) (tr : List Event) :
    (finishWithExit env b s tr).trace = tr ++ [.lockReleaseEv] :=
  (finishWithExit_shape env b s tr).1

/-- Projection form of `finishWithExit_shape`, for rewriting. -/
theorem finishWithExit_state_eq {M : Type} (env : Env M) (b : Except Err Unit)
    (s : CacheState M) (tr : List Event) :
    (finishWithExit env b s tr).state = s :=
  (finishWithExit_shape env b s tr).2.1

/-- Projection form of `finishWithExit_shape`, for rewriting. -/
theorem finishWithExit_body_eq {M : Type} (env : Env M) (b : Except Err Unit)
    (s : CacheState M) (tr : List Event) :
    (finishWithExit env b s tr).bodyResult = b :=
  (finishWithExit_shape env b s tr).2.2

/-- The lock-release attempt is recorded on every exit path. -/
theorem finishWithExit_release_mem {M : Type} (env : Env M) (b : Except Err Unit)
    (s : CacheState M) (tr : List Event) :
    Event.lockReleaseEv ∈ (finishWithExit env b s tr).trace := by
  rw [finishWithExit_trace_eq]
  simp

/-- If the body raised, the overall `modify` outcome is still an error
(either the body's exception or one raised by `__exit__` itself). -/
theorem finishWithExit_error {M : Type} (env : Env M) (e : Err)
    (s : CacheState M) (tr : List Event) :
    ∃ e2, (finishWithExit env (.error e) s tr).result = .error e2 := by
  unfold finishWithExit
  cases h : crossPlatLockExit env.removeErrno with
  | ok u => exact ⟨e, by simp⟩
  | error e2 => exact ⟨e2, by simp⟩

/-- C2: once the cross-process lock is acquired, a fully successful
`modify` performs, in order: the conditional reload, the in-memory
mutation, the serialization and save, the `last_sync := time.time()`
update, and the lock release; and whatever the body does, the release is
attempted (`lockReleaseEv` is always in the trace). -/
theorem modify_order_spec {M : Type} (env : Env M) (s : CacheState M) :
    (env.acquire = .ok () → env.removeErrno = none →
      ∀ m2 data, (reloadIfNecessary env s).result = .ok () →
        env.memModify (reloadIfNecessary env s).state.mem = .ok m2 →
        env.serialize m2 = .ok data → env.save data = .ok () →
        modify env s =
          ⟨.ok (), .ok (), { mem := m2, lastSync := env.now2 },
            [Event.lockAcquireEv] ++ (reloadIfNecessary env s).trace ++
              [.memModifyEv, .serializeEv, .saveEv, .setLastSyncEv env.now2,
                .lockReleaseEv]⟩) ∧
    (env.acquire = .ok () → Event.lockReleaseEv ∈ (modify env s).trace) := by
  constructor
  · intro hacq hrem m2 data hre hmod hser hsave
    simp only [modify, hacq, hre, hmod, hser, hsave]
    simp [finishWithExit, crossPlatLockExit, hrem]
  · intro hacq
    simp only [modify, hacq]
    cases hre : (reloadIfNecessary env s).result with
    | error e => simp [finishWithExit_trace_eq]
    | ok u =>
      cases hmod : env.memModify (reloadIfNecessary env s).state.mem with
      | error e => simp [finishWithExit_trace_eq]
      | ok m2 =>
        cases hser : env.serialize m2 with
        | error e => simp [hser, finishWithExit_trace_eq]
        | ok data =>
          cases hsave : env.save data with
          | error e => simp [hser, hsave, finishWithExit_trace_eq]
          | ok u2 => simp [hser, hsave, finishWithExit_trace_eq]

/-- C2 witness: a concrete fully successful `modify` call produces
exactly the claimed sequence of operations. -/
theorem modify_order_spec_witness :
    modify envA (initialCacheState 0) =
      ⟨.ok (), .ok (), { mem := 8, lastSync := 12 },
        [Event.lockAcquireEv] ++
          [.getTimeLastModified, .loadEv, .deserializeEv, .setLastSyncEv 11] ++
          [.memModifyEv, .serializeEv, .saveEv, .setLastSyncEv 12, .lockReleaseEv]⟩ ∧
    Event.lockReleaseEv ∈ (modify envA (initialCacheState 0)).trace := by
  constructor
  · have h := (modify_order_spec envA (initialCacheState 0)).1 rfl rfl 8 "ser"
      (by norm_num [reloadIfNecessary, envA, initialCacheState])
      (by norm_num [reloadIfNecessary, envA, initialCacheState])
      rfl rfl
    rw [h]
    norm_num [reloadIfNecessary, envA, initialCacheState]
  · exact (modify_order_spec envA (initialCacheState 0)).2 rfl

/-- C9 counterexample: in `envSaveFails` the backend is newer than
`last_sync = 0`, so the reload step inside `modify` succeeds and advances
`last_sync` to the reload time 11; the subsequent `save` then raises.  The
`modify` call propagates the exception, yet `last_sync` has changed — so
"when the save raises, `last_sync` is left unchanged" is false. -/
theorem modify_lastSync_counterexample :
    (modify envSaveFails (initialCacheState 0)).result = .error (.other "boom") ∧
    (modify envSaveFails (initialCacheState 0)).state.lastSync ≠
      (initialCacheState (0 : Nat)).lastSync ∧
    Event.lockReleaseEv ∈ (modify envSaveFails (initialCacheState 0)).trace := by
  norm_num [modify, envSaveFails, envA, initialCacheState, reloadIfNecessary,
    finishWithExit, crossPlatLockExit]

/-- C9 amended: when the body of `modify` (reload, in-memory mutation,
serialization, or save) raises, the final `last_sync := time.time()`
assignment after the save does not happen: `last_sync` is either
unchanged or equal to the reload-step clock value (a successful reload
inside the same call may already have advanced it); the lock-file removal
is still attempted, and the call propagates an error. -/
theorem modify_body_error_spec {M : Type} (env : Env M) (s : CacheState M)
    (e : Err) (hacq : env.acquire = .ok ())
    (hb : (modify env s).bodyResult = .error e) :
    ((modify env s).state.lastSync = s.lastSync ∨
      (modify env s).state.lastSync = env.now) ∧
    Event.lockReleaseEv ∈ (modify env s).trace ∧
    ∃ e2, (modify env s).result = .error e2 := by
  simp only [modify, hacq] at hb ⊢
  cases hre : (reloadIfNecessary env s).result with
  | error e1 =>
    have hst := reload_error_state env s e1 hre
    simp only [finishWithExit_state_eq, finishWithExit_trace_eq]
    refine ⟨Or.inl (by rw [hst]), by simp, finishWithExit_error env _ _ _⟩
  | ok u =>
    cases hmod : env.memModify (reloadIfNecessary env s).state.mem with
    | error e1 =>
      simp only [finishWithExit_state_eq, finishWithExit_trace_eq]
      exact ⟨reload_lastSync_cases env s, by simp, finishWithExit_error env _ _ _⟩
    | ok m2 =>
      cases hser : env.serialize m2 with
      | error e1 =>
        simp only [hser, finishWithExit_state_eq, finishWithExit_trace_eq]
        exact ⟨reload_lastSync_cases env s, by simp, finishWithExit_error env _ _ _⟩
      | ok data =>
        cases hsave : env.save data with
        | error e1 =>
          simp only [hser, hsave, finishWithExit_state_eq, finishWithExit_trace_eq]
          exact ⟨reload_lastSync_cases env s, by simp, finishWithExit_error env _ _ _⟩
        | ok u2 =>
          simp only [hre, hmod, hser, hsave, finishWithExit_body_eq] at hb
          exact absurd hb (by simp)

/-- C9 amended witness: the failing-save environment satisfies the
amended statement — `last_sync` equals the reload time, the release is
attempted, and an error propagates. -/
theorem modify_body_error_spec_witness :
    ((modify envSaveFails (initialCacheState 0)).state.lastSync =
        (initialCacheState (0 : Nat)).lastSync ∨
      (modify envSaveFails (initialCacheState 0)).state.lastSync = envSaveFails.now) ∧
    Event.lockReleaseEv ∈ (modify envSaveFails (initialCacheState 0)).trace ∧
    ∃ e2, (modify envSaveFails (initialCacheState 0)).result = .error e2 :=
  modify_body_error_spec envSaveFails (initialCacheState 0) (.other "boom") rfl
    (by norm_num [modify, envSaveFails, envA, initialCacheState, reloadIfNecessary,
      finishWithExit, crossPlatLockExit])

/-- Like `envA`, but `load` raises a non-`PersistenceNotFound` error (a
dirty read / decryption failure), so `_reload_if_necessary` propagates. -/
def envLoadFails : Env Nat :=
  { envA with load := .error (.other "io") }

/-- Unfolding `findGo` when the reload attempt succeeds: return the
in-memory lookup immediately. -/
theorem findGo_ok {M R : Type} (envs : Nat → Env M) (memFind : M → List R)
    (fuel attempt : Nat) (s : CacheState M)
    (hok : (reloadIfNecessary (envs attempt) s).result = .ok ()) :
    findGo envs memFind (fuel + 1) attempt s =
      ⟨.delegated (memFind (reloadIfNecessary (envs attempt) s).state.mem),
        (reloadIfNecessary (envs attempt) s).state, 1, 0,
        (reloadIfNecessary (envs attempt) s).trace ++ [.memFindEv]⟩ := by
  simp only [findGo, hok]

/-- Unfolding `findGo` when the reload attempt fails and `attempt < retry`:
sleep 0.5 s and recurse with the next attempt. -/
theorem findGo_err_retry {M R : Type} (envs : Nat → Env M) (memFind : M → List R)
    (fuel attempt : Nat) (s : CacheState M) (hlt : attempt < findRetry) (e : Err)
    (herr : (reloadIfNecessary (envs attempt) s).result = .error e) :
    findGo envs memFind (fuel + 1) attempt s =
      ⟨(findGo envs memFind fuel (attempt + 1) (reloadIfNecessary (envs attempt) s).state).result,
        (findGo envs memFind fuel (attempt + 1) (reloadIfNecessary (envs attempt) s).state).state,
        (findGo envs memFind fuel (attempt + 1) (reloadIfNecessary (envs attempt) s).state).attempts + 1,
        (findGo envs memFind fuel (attempt + 1) (reloadIfNecessary (envs attempt) s).state).sleeps + 1,
        (reloadIfNecessary (envs attempt) s).trace ++ [.sleepEv (1/2)] ++
          (findGo envs memFind fuel (attempt + 1) (reloadIfNecessary (envs attempt) s).state).trace⟩ := by
  simp only [findGo, herr, if_pos hlt]

/-- Unfolding `findGo` when the reload attempt fails on the last attempt
(`attempt ≥ retry`): re-raise the exception as-is. -/
theorem findGo_err_last {M R : Type} (envs : Nat → Env M) (memFind : M → List R)
    (fuel attempt : Nat) (s : CacheState M) (hge : ¬ attempt < findRetry) (e : Err)
    (herr : (reloadIfNecessary (envs attempt) s).result = .error e) :
    findGo envs memFind (fuel + 1) attempt s =
      ⟨.raised e, (reloadIfNecessary (envs attempt) s).state, 1, 0,
        (reloadIfNecessary (envs attempt) s).trace⟩ := by
  simp only [findGo, herr, if_neg hge]

/-- The retry loop makes at most `fuel` reload attempts. -/
theorem findGo_attempts_le {M R : Type} (envs : Nat → Env M) (memFind : M → List R) :
    ∀ (fuel attempt : Nat) (s : CacheState M),
      (findGo envs memFind fuel attempt s).attempts ≤ fuel := by
  intro fuel
  induction fuel with
  | zero => intro attempt s; simp [findGo]
  | succ fuel ih =>
    intro attempt s
    cases hre : (reloadIfNecessary (envs attempt) s).result with
    | ok u =>
      cases u
      rw [findGo_ok envs memFind fuel attempt s hre]
      simp
    | error e =>
      by_cases hlt : attempt < findRetry
      · rw [findGo_err_retry envs memFind fuel attempt s hlt e hre]
        have := ih (attempt + 1) (reloadIfNecessary (envs attempt) s).state
        simp only []
        omega
      · rw [findGo_err_last envs memFind fuel attempt s hlt e hre]
        simp

/-- As long as the remaining iteration budget reaches the last attempt
(`retry < attempt + fuel`), the loop returns a delegated result or
re-raises; it never falls out of the loop. -/
theorem findGo_no_fallback {M R : Type} (envs : Nat → Env M) (memFind : M → List R) :
    ∀ (fuel attempt : Nat) (s : CacheState M), 1 ≤ fuel → findRetry < attempt + fuel →
      ((∃ rs, (findGo envs memFind fuel attempt s).result = .delegated rs) ∨
        (∃ e, (findGo envs memFind fuel attempt s).result = .raised e)) := by
  intro fuel
  induction fuel with
  | zero => intro attempt s h1 _; exact absurd h1 (by omega)
  | succ fuel ih =>
    intro attempt s h1 h2
    cases hre : (reloadIfNecessary (envs attempt) s).result with
    | ok u =>
      cases u
      rw [findGo_ok envs memFind fuel attempt s hre]
      exact Or.inl ⟨_, rfl⟩
    | error e =>
      by_cases hlt : attempt < findRetry
      · rw [findGo_err_retry envs memFind fuel attempt s hlt e hre]
        have hrec := ih (attempt + 1) (reloadIfNecessary (envs attempt) s).state
          (by unfold findRetry at *; omega) (by omega)
        simpa using hrec
      · rw [findGo_err_last envs memFind fuel attempt s hlt e hre]
        exact Or.inr ⟨e, rfl⟩

/-- C10: the trailing `return []` of `find` is unreachable — every `find`
call either returns the in-memory cache's lookup result or raises; the
result is never the empty-list fallback. -/
theorem find_no_fallback {M R : Type} (envs : Nat → Env M) (memFind : M → List R)
    (s : CacheState M) :
    (find envs memFind s).result ≠ .fallback ∧
      ((∃ rs, (find envs memFind s).result = .delegated rs) ∨
        (∃ e, (find envs memFind s).result = .raised e)) := by
  have h := findGo_no_fallback envs memFind findRetry 1 s (by decide) (by decide)
  have h2 : (find envs memFind s).result = (findGo envs memFind findRetry 1 s).result := rfl
  refine ⟨?_, by rw [h2]; exact h⟩
  rw [h2]
  rcases h with ⟨rs, hr⟩ | ⟨e, hr⟩ <;> simp [hr]

/-- C3: `find` makes at most 3 reload attempts; the first successful
attempt immediately returns the in-memory lookup (having slept 0.5 s
after each of the earlier failed attempts); and if all 3 attempts fail,
the third attempt's failure is re-raised, after exactly 3 attempts and
2 sleeps of 0.5 s. -/
theorem find_retry_spec {M R : Type} (envs : Nat → Env M) (memFind : M → List R)
    (s : CacheState M) :
    (find envs memFind s).attempts ≤ 3 ∧
    (∀ k, 1 ≤ k → k ≤ 3 →
      (∀ j, 1 ≤ j → j < k → ∃ e, (reloadIfNecessary (envs j) s).result = .error e) →
      (reloadIfNecessary (envs k) s).result = .ok () →
      (find envs memFind s).result =
          .delegated (memFind (reloadIfNecessary (envs k) s).state.mem) ∧
        (find envs memFind s).attempts = k ∧ (find envs memFind s).sleeps = k - 1) ∧
    (∀ e : Nat → Err,
      (∀ j, 1 ≤ j → j ≤ 3 → (reloadIfNecessary (envs j) s).result = .error (e j)) →
      (find envs memFind s).result = .raised (e 3) ∧
        (find envs memFind s).attempts = 3 ∧ (find envs memFind s).sleeps = 2 ∧
        (find envs memFind s).trace =
          (reloadIfNecessary (envs 1) s).trace ++ [.sleepEv (1/2)] ++
            ((reloadIfNecessary (envs 2) s).trace ++ [.sleepEv (1/2)] ++
              (reloadIfNecessary (envs 3) s).trace)) := by
  refine ⟨findGo_attempts_le envs memFind findRetry 1 s, ?_, ?_⟩
  · intro k hk1 hk3 hfail hok
    interval_cases k
    · have heq : find envs memFind s =
          ⟨.delegated (memFind (reloadIfNecessary (envs 1) s).state.mem),
            (reloadIfNecessary (envs 1) s).state, 1, 0,
            (reloadIfNecessary (envs 1) s).trace ++ [.memFindEv]⟩ :=
        findGo_ok envs memFind 2 1 s hok
      rw [heq]
      exact ⟨rfl, rfl, rfl⟩
    · obtain ⟨e1, h1⟩ := hfail 1 (by norm_num) (by norm_num)
      have step1 : find envs memFind s =
          ⟨(findGo envs memFind 2 2 (reloadIfNecessary (envs 1) s).state).result,
            (findGo envs memFind 2 2 (reloadIfNecessary (envs 1) s).state).state,
            (findGo envs memFind 2 2 (reloadIfNecessary (envs 1) s).state).attempts + 1,
            (findGo envs memFind 2 2 (reloadIfNecessary (envs 1) s).state).sleeps + 1,
            (reloadIfNecessary (envs 1) s).trace ++ [.sleepEv (1/2)] ++
              (findGo envs memFind 2 2 (reloadIfNecessary (envs 1) s).state).trace⟩ :=
        findGo_err_retry envs memFind 2 1 s (by decide) e1 h1
      rw [reload_error_state (envs 1) s e1 h1] at step1
      have step2 : findGo envs memFind 2 2 s =
          ⟨.delegated (memFind (reloadIfNecessary (envs 2) s).state.mem),
            (reloadIfNecessary (envs 2) s).state, 1, 0,
            (reloadIfNecessary (envs 2) s).trace ++ [.memFindEv]⟩ :=
        findGo_ok envs memFind 1 2 s hok
      rw [step2] at step1
      rw [step1]
      exact ⟨rfl, rfl, rfl⟩
    · obtain ⟨e1, h1⟩ := hfail 1 (by norm_num) (by norm_num)
      obtain ⟨e2, h2⟩ := hfail 2 (by norm_num) (by norm_num)
      have step1 : find envs memFind s =
          ⟨(findGo envs memFind 2 2 (reloadIfNecessary (envs 1) s).state).result,
            (findGo envs memFind 2 2 (reloadIfNecessary (envs 1) s).state).state,
            (findGo envs memFind 2 2 (reloadIfNecessary (envs 1) s).state).attempts + 1,
            (findGo envs memFind 2 2 (reloadIfNecessary (envs 1) s).state).sleeps + 1,
            (reloadIfNecessary (envs 1) s).trace ++ [.sleepEv (1/2)] ++
              (findGo envs memFind 2 2 (reloadIfNecessary (envs 1) s).state).trace⟩ :=
        findGo_err_retry envs memFind 2 1 s (by decide) e1 h1
      rw [reload_error_state (envs 1) s e1 h1] at step1
      have step2 : findGo envs memFind 2 2 s =
          ⟨(findGo envs memFind 1 3 (reloadIfNecessary (envs 2) s).state).result,
            (findGo envs memFind 1 3 (reloadIfNecessary (envs 2) s).state).state,
            (findGo envs memFind 1 3 (reloadIfNecessary (envs 2) s).state).attempts + 1,
            (findGo envs memFind 1 3 (reloadIfNecessary (envs 2) s).state).sleeps + 1,
            (reloadIfNecessary (envs 2) s).trace ++ [.sleepEv (1/2)] ++
              (findGo envs memFind 1 3 (reloadIfNecessary (envs 2) s).state).trace⟩ :=
        findGo_err_retry envs memFind 1 2 s (by decide) e2 h2
      rw [reload_error_state (envs 2) s e2 h2] at step2
      have step3 : findGo envs memFind 1 3 s =
          ⟨.delegated (memFind (reloadIfNecessary (envs 3) s).state.mem),
            (reloadIfNecessary (envs 3) s).state, 1, 0,
            (reloadIfNecessary (envs 3) s).trace ++ [.memFindEv]⟩ :=
        findGo_ok envs memFind 0 3 s hok
      rw [step3] at step2
      rw [step2] at step1
      rw [step1]
      exact ⟨rfl, rfl, rfl⟩
  · intro e hfail
    have h1 := hfail 1 (by norm_num) (by norm_num)
    have h2 := hfail 2 (by norm_num) (by norm_num)
    have h3 := hfail 3 (by norm_num) (by norm_num)
    have step1 : find envs memFind s =
        ⟨(findGo envs memFind 2 2 (reloadIfNecessary (envs 1) s).state).result,
          (findGo envs memFind 2 2 (reloadIfNecessary (envs 1) s).state).state,
          (findGo envs memFind 2 2 (reloadIfNecessary (envs 1) s).state).attempts + 1,
          (findGo envs memFind 2 2 (reloadIfNecessary (envs 1) s).state).sleeps + 1,
          (reloadIfNecessary (envs 1) s).trace ++ [.sleepEv (1/2)] ++
            (findGo envs memFind 2 2 (reloadIfNecessary (envs 1) s).state).trace⟩ :=
      findGo_err_retry envs memFind 2 1 s (by decide) (e 1) h1
    rw [reload_error_state (envs 1) s (e 1) h1] at step1
    have step2 : findGo envs memFind 2 2 s =
        ⟨(findGo envs memFind 1 3 (reloadIfNecessary (envs 2) s).state).result,
          (findGo envs memFind 1 3 (reloadIfNecessary (envs 2) s).state).state,
          (findGo envs memFind 1 3 (reloadIfNecessary (envs 2) s).state).attempts + 1,
          (findGo envs memFind 1 3 (reloadIfNecessary (envs 2) s).state).sleeps + 1,
          (reloadIfNecessary (envs 2) s).trace ++ [.sleepEv (1/2)] ++
            (findGo envs memFind 1 3 (reloadIfNecessary (envs 2) s).state).trace⟩ :=
      findGo_err_retry envs memFind 1 2 s (by decide) (e 2) h2
    rw [reload_error_state (envs 2) s (e 2) h2] at step2
    have step3 : findGo envs memFind 1 3 s =
        ⟨.raised (e 3), (reloadIfNecessary (envs 3) s).state, 1, 0,
          (reloadIfNecessary (envs 3) s).trace⟩ :=
      findGo_err_last envs memFind 0 3 s (by decide) (e 3) h3
    rw [step3] at step2
    rw [step2] at step1
    rw [step1]
    exact ⟨rfl, rfl, rfl, rfl⟩

/-- C3 witness: with a backend whose `load` always raises a dirty-read
error, `find` raises that error after exactly 3 attempts and 2 sleeps;
with a healthy backend it succeeds on attempt 1. -/
theorem find_retry_spec_witness :
    (find (fun _ => envLoadFails) (fun m : Nat => [m]) (initialCacheState 0)).result =
        .raised (.other "io") ∧
      (find (fun _ => envLoadFails) (fun m : Nat => [m]) (initialCacheState 0)).attempts = 3 ∧
      (find (fun _ => envLoadFails) (fun m : Nat => [m]) (initialCacheState 0)).sleeps = 2 ∧
      (find (fun _ => envA) (fun m : Nat => [m]) (initialCacheState 0)).attempts = 1 := by
  have hall := (find_retry_spec (fun _ => envLoadFails) (fun m : Nat => [m])
      (initialCacheState 0)).2.2 (fun _ => .other "io")
    (by
      intro j hj1 hj3
      norm_num [reloadIfNecessary, envLoadFails, envA, initialCacheState]
      rfl)
  have hone := (find_retry_spec (fun _ => envA) (fun m : Nat => [m])
      (initialCacheState 0)).2.1 1 (by norm_num) (by norm_num)
    (by intro j hj1 hj2; omega)
    (by norm_num [reloadIfNecessary, envA, initialCacheState])
  exact ⟨hall.1, hall.2.1, hall.2.2.1, hone.2.1⟩

/-- After a `modify` call, `last_sync` is unchanged or equal to one of
the two clock reads of the call (the reload-time read or the post-save
read). -/
theorem modify_lastSync_cases {M : Type} (env : Env M) (s : CacheState M) :
    (modify env s).state.lastSync = s.lastSync ∨
      (modify env s).state.lastSync = env.now ∨
      (modify env s).state.lastSync = env.now2 := by
  cases hacq : env.acquire with
  | error e => simp [modify, hacq]
  | ok u =>
    cases u
    simp only [modify, hacq]
    cases hre : (reloadIfNecessary env s).result with
    | error e1 =>
      simp only [finishWithExit_state_eq]
      rw [reload_error_state env s e1 hre]
      exact Or.inl rfl
    | ok u =>
      cases hmod : env.memModify (reloadIfNecessary env s).state.mem with
      | error e1 =>
        simp only [finishWithExit_state_eq]
        rcases reload_lastSync_cases env s with h | h
        · exact Or.inl h
        · exact Or.inr (Or.inl h)
      | ok m2 =>
        cases hser : env.serialize m2 with
        | error e1 =>
          simp only [hser, finishWithExit_state_eq]
          rcases reload_lastSync_cases env s with h | h
          · exact Or.inl h
          · exact Or.inr (Or.inl h)
        | ok data =>
          cases hsave : env.save data with
          | error e1 =>
            simp only [hser, hsave, finishWithExit_state_eq]
            rcases reload_lastSync_cases env s with h | h
            · exact Or.inl h
            · exact Or.inr (Or.inl h)
          | ok u2 =>
            simp [hser, hsave, finishWithExit_state_eq]

/-- Through the retry loop, `last_sync` never decreases, provided the
clock readings of successive attempts are monotone. -/
theorem findGo_lastSync_mono {M R : Type} (envs : Nat → Env M) (memFind : M → List R)
    (hmono : ∀ k, (envs k).now ≤ (envs (k + 1)).now) :
    ∀ (fuel attempt : Nat) (s : CacheState M), s.lastSync ≤ (envs attempt).now →
      s.lastSync ≤ (findGo envs memFind fuel attempt s).state.lastSync := by
  intro fuel
  induction fuel with
  | zero => intro attempt s h; simp [findGo]
  | succ fuel ih =>
    intro attempt s h
    cases hre : (reloadIfNecessary (envs attempt) s).result with
    | ok u =>
      cases u
      rw [findGo_ok envs memFind fuel attempt s hre]
      show s.lastSync ≤ (reloadIfNecessary (envs attempt) s).state.lastSync
      rcases reload_lastSync_cases (envs attempt) s with h2 | h2 <;> rw [h2]
      exact h
    | error e =>
      by_cases hlt : attempt < findRetry
      · rw [findGo_err_retry envs memFind fuel attempt s hlt e hre,
          reload_error_state (envs attempt) s e hre]
        exact ih (attempt + 1) s (le_trans h (hmono attempt))
      · rw [findGo_err_last envs memFind fuel attempt s hlt e hre,
          reload_error_state (envs attempt) s e hre]

/-- C8: `last_sync` starts at 0 at construction and is monotonically
non-decreasing: each of `reload_if_necessary`, `modify` and `find` leaves
it unchanged or sets it to one of the clock readings taken during the
call (never an earlier value), assuming the process clock itself does not
run backwards. -/
theorem lastSync_monotone_spec {M R : Type} (m : M) (env : Env M)
    (envs : Nat → Env M) (memFind : M → List R) (s : CacheState M) :
    (initialCacheState m).lastSync = 0 ∧
    (s.lastSync ≤ env.now →
      s.lastSync ≤ (reloadIfNecessary env s).state.lastSync ∧
        ((reloadIfNecessary env s).state.lastSync = s.lastSync ∨
          (reloadIfNecessary env s).state.lastSync = env.now)) ∧
    (s.lastSync ≤ env.now → env.now ≤ env.now2 →
      s.lastSync ≤ (modify env s).state.lastSync ∧
        ((modify env s).state.lastSync = s.lastSync ∨
          (modify env s).state.lastSync = env.now ∨
          (modify env s).state.lastSync = env.now2)) ∧
    ((∀ k, (envs k).now ≤ (envs (k + 1)).now) → s.lastSync ≤ (envs 1).now →
      s.lastSync ≤ (find envs memFind s).state.lastSync) := by
  refine ⟨rfl, fun h => ⟨?_, reload_lastSync_cases env s⟩,
    fun h h2 => ⟨?_, modify_lastSync_cases env s⟩,
    fun hm h => findGo_lastSync_mono envs memFind hm findRetry 1 s h⟩
  · rcases reload_lastSync_cases env s with h2 | h2 <;> rw [h2]
    exact h
  · rcases modify_lastSync_cases env s with h3 | h3 | h3 <;> rw [h3]
    · exact h
    · exact le_trans h h2

/-- C8 witness: on a fresh cache with `envA`'s clocks (11 then 12), every
operation leaves `last_sync` at or above its starting value 0. -/
theorem lastSync_monotone_spec_witness :
    (initialCacheState (0 : Nat)).lastSync = 0 ∧
    (initialCacheState (0 : Nat)).lastSync ≤
      (reloadIfNecessary envA (initialCacheState 0)).state.lastSync ∧
    (initialCacheState (0 : Nat)).lastSync ≤
      (modify envA (initialCacheState 0)).state.lastSync ∧
    (initialCacheState (0 : Nat)).lastSync ≤
      (find (fun _ => envA) (fun m : Nat => [m]) (initialCacheState 0)).state.lastSync := by
  have h := lastSync_monotone_spec (0 : Nat) envA (fun _ => envA) (fun m : Nat => [m])
    (initialCacheState 0)
  exact ⟨h.1, (h.2.1 (by norm_num [initialCacheState, envA])).1,
    (h.2.2.1 (by norm_num [initialCacheState, envA]) (by norm_num [envA])).1,
    h.2.2.2 (fun k => le_refl _) (by norm_num [initialCacheState, envA])⟩

/-- The deadline check `timeout_end > current_time()` at the `k`-th
attempt (taken at time `t0 + 0.25 k`) passes iff `k < 20`. -/
theorem deadline_iff (t0 : ℚ) (k : ℕ) :
    (t0 + lockTimeout > t0 + checkInterval * (k : ℚ)) ↔ k < 20 := by
  unfold lockTimeout checkInterval
  rw [gt_iff_lt, add_lt_add_iff_left]
  constructor
  · intro h
    by_contra hk
    push_neg at hk
    have h20 : (20 : ℚ) ≤ (k : ℚ) := by exact_mod_cast hk
    linarith
  · intro h
    have h20 : (k : ℚ) < 20 := by exact_mod_cast h
    linarith

/-- When every exclusive-creation attempt hits an existing lock file, the
loop makes the attempts `j, j+1, …, 19` (at times `t0 + 0.25 k`) and then
raises `LockError`. -/
theorem createLockFileGo_allFail (fe : Nat → Bool) (t0 : ℚ) (path : String)
    (hfe : ∀ k, k < 20 → fe k = true) :
    ∀ (fuel j : Nat), j + fuel = 21 → j ≤ 20 →
      createLockFileGo fe t0 path fuel j =
        (.lockError (lockErrorMessage path),
          (List.range' j (20 - j)).map (fun k : ℕ => t0 + checkInterval * (k : ℚ))) := by
  intro fuel
  induction fuel with
  | zero => intro j hj1 hj2; exact absurd hj1 (by omega)
  | succ fuel ih =>
    intro j hj1 hj2
    by_cases hj : j < 20
    · have hcond : t0 + lockTimeout > t0 + checkInterval * (j : ℚ) :=
        (deadline_iff t0 j).mpr hj
      simp only [createLockFileGo]
      rw [if_pos hcond, hfe j hj]
      simp only [if_true]
      rw [ih (j + 1) (by omega) (by omega)]
      have h20 : 20 - j = (20 - (j + 1)) + 1 := by omega
      rw [h20, List.range'_succ]
      simp
    · have hj20 : j = 20 := by omega
      subst hj20
      have hcond : ¬ (t0 + lockTimeout > t0 + checkInterval * ((20 : ℕ) : ℚ)) := by
        rw [deadline_iff]
        omega
      simp only [createLockFileGo]
      rw [if_neg hcond]
      simp

/-- One-step unfolding of the retry loop. -/
theorem createLockFileGo_succ (fe : Nat → Bool) (t0 : ℚ) (path : String)
    (fuel k : Nat) :
    createLockFileGo fe t0 path (fuel + 1) k =
      if t0 + lockTimeout > t0 + checkInterval * (k : ℚ) then
        if fe k then
          ((createLockFileGo fe t0 path fuel (k + 1)).1,
            (t0 + checkInterval * (k : ℚ)) :: (createLockFileGo fe t0 path fuel (k + 1)).2)
        else (.success (k + 1), [t0 + checkInterval * (k : ℚ)])
      else (.lockError (lockErrorMessage path), []) := rfl

/-- `_create_lock_file` always makes at least one creation attempt: the
first deadline check (`t0 + 5 > t0`) always passes. -/
theorem createLockFile_attempts_pos (fe : Nat → Bool) (t0 : ℚ) (path : String) :
    1 ≤ (createLockFile fe t0 path).2.length := by
  have h : createLockFile fe t0 path = createLockFileGo fe t0 path (20 + 1) 0 := rfl
  have hcond : t0 + lockTimeout > t0 + checkInterval * ((0 : ℕ) : ℚ) :=
    (deadline_iff t0 0).mpr (by norm_num)
  rw [h, createLockFileGo_succ, if_pos hcond]
  cases hfe : fe 0 <;> simp

/-- C5: if every exclusive-creation attempt fails because the lock file
already exists, `_create_lock_file` makes one attempt every 0.25 s — at
times `t0 + 0.25 k`, all strictly before the 5-second deadline `t0 + 5`
set before the first attempt — and, once the 20th attempt's sleep reaches
the deadline (`0.25 · 20 = 5`), raises `LockError` with a message
suggesting manual removal of the stale lock file.  At least one creation
attempt is always made, whatever the attempt outcomes. -/
theorem create_lock_file_timeout_spec (fe : Nat → Bool) (t0 : ℚ) (path : String) :
    1 ≤ (createLockFile fe t0 path).2.length ∧
    t0 + lockTimeout ≤ t0 + checkInterval * (20 : ℚ) ∧
    ((∀ k, k < 20 → fe k = true) →
      createLockFile fe t0 path =
        (.lockError (lockErrorMessage path),
          (List.range' 0 20).map (fun k : ℕ => t0 + checkInterval * (k : ℚ))) ∧
      ∀ t ∈ (createLockFile fe t0 path).2, t < t0 + lockTimeout) := by
  refine ⟨createLockFile_attempts_pos fe t0 path, ?_, fun hfe => ?_⟩
  · unfold lockTimeout checkInterval
    norm_num
  · have heq : createLockFile fe t0 path =
        (.lockError (lockErrorMessage path),
          (List.range' 0 20).map (fun k : ℕ => t0 + checkInterval * (k : ℚ))) := by
      have h := createLockFileGo_allFail fe t0 path hfe 21 0 (by omega) (by omega)
      exact h
    refine ⟨heq, fun t ht => ?_⟩
    rw [heq] at ht
    obtain ⟨k, hk, rfl⟩ := List.mem_map.mp ht
    have hk20 : k < 20 := by
      have := List.mem_range'_1.mp hk
      omega
    exact (deadline_iff t0 k).mpr hk20

/-- C5 witness: with the lock file permanently present, acquisition
starting at clock value 100 makes the 20 attempts at times
`100, 100.25, …, 104.75` and fails with the stale-lock message. -/
theorem create_lock_file_timeout_spec_witness :
    createLockFile (fun _ => true) 100 "cache.lockfile" =
      (.lockError (lockErrorMessage "cache.lockfile"),
        (List.range' 0 20).map (fun k : ℕ => (100 : ℚ) + checkInterval * (k : ℚ))) ∧
    1 ≤ (createLockFile (fun _ => true) 100 "cache.lockfile").2.length := by
  have h := create_lock_file_timeout_spec (fun _ => true) 100 "cache.lockfile"
  exact ⟨(h.2.2 (fun k hk => rfl)).1, h.1⟩

/-- Program counters after `setPc`. -/
theorem pcOf_setPc (s : Sys) (i j : Bool) (v : Nat) :
    pcOf (setPc s i v) j = if j = i then v else pcOf s j := by
  cases i <;> cases j <;> simp [pcOf, setPc]

/-- `pcOf` ignores the lock flag. -/
theorem pcOf_withLock (s : Sys) (b : Bool) (j : Bool) :
    pcOf { s with lock := b } j = pcOf s j := by
  cases j <;> simp [pcOf]

/-- `setPc` leaves the lock flag alone. -/
theorem lock_setPc (s : Sys) (i : Bool) (v : Nat) :
    (setPc s i v).lock = s.lock := by
  cases i <;> simp [setPc]

/-- Characterization of an enabled step. -/
theorem stepFn_some (s s2 : Sys) (i : Bool) (a : Act)
    (h : stepFn s (i, a) = some s2) :
    (a = .acquire ∧ pcOf s i = 0 ∧ s.lock = false ∧
      s2 = { setPc s i 1 with lock := true }) ∨
    (a = .reload ∧ pcOf s i = 1 ∧ s2 = setPc s i 2) ∨
    (a = .mutate ∧ pcOf s i = 2 ∧ s2 = setPc s i 3) ∨
    (a = .save ∧ pcOf s i = 3 ∧ s2 = setPc s i 4) ∨
    (a = .release ∧ pcOf s i = 4 ∧
      s2 = { setPc s i 5 with lock := false }) := by
  cases a <;> simp only [stepFn] at h
  · by_cases hc : pcOf s i = 0 ∧ s.lock = false
    · rw [if_pos hc] at h
      exact Or.inl ⟨rfl, hc.1, hc.2, (Option.some.inj h).symm⟩
    · rw [if_neg hc] at h
      exact absurd h (by simp)
  · by_cases hc : pcOf s i = 1
    · rw [if_pos hc] at h
      exact Or.inr (Or.inl ⟨rfl, hc, (Option.some.inj h).symm⟩)
    · rw [if_neg hc] at h
      exact absurd h (by simp)
  · by_cases hc : pcOf s i = 2
    · rw [if_pos hc] at h
      exact Or.inr (Or.inr (Or.inl ⟨rfl, hc, (Option.some.inj h).symm⟩))
    · rw [if_neg hc] at h
      exact absurd h (by simp)
  · by_cases hc : pcOf s i = 3
    · rw [if_pos hc] at h
      exact Or.inr (Or.inr (Or.inr (Or.inl ⟨rfl, hc, (Option.some.inj h).symm⟩)))
    · rw [if_neg hc] at h
      exact absurd h (by simp)
  · by_cases hc : pcOf s i = 4
    · rw [if_pos hc] at h
      exact Or.inr (Or.inr (Or.inr (Or.inr ⟨rfl, hc, (Option.some.inj h).symm⟩)))
    · rw [if_neg hc] at h
      exact absurd h (by simp)

/-- The lock invariant is preserved by every enabled step. -/
theorem stepFn_lockInv (s s2 : Sys) (i : Bool) (a : Act)
    (h : stepFn s (i, a) = some s2) (hinv : LockInv s) : LockInv s2 := by
  rcases stepFn_some s s2 i a h with
    ⟨-, hpc, hlk, rfl⟩ | ⟨-, hpc, rfl⟩ | ⟨-, hpc, rfl⟩ | ⟨-, hpc, rfl⟩ | ⟨-, hpc, rfl⟩ <;>
    cases i <;>
    · simp only [LockInv, Holds, pcOf, setPc] at hinv hpc ⊢
      simp only [Bool.false_eq_true, if_false, if_true] at hinv hpc ⊢
      cases hlock : s.lock <;> simp_all

/-- Blockiness is preserved by a step that changes neither the
critical-section event counts nor whether a process has finished. -/
theorem blocky_of_same (s s2 : Sys) (cs : List Bool)
    (hcc : ∀ j, ccOf (pcOf s2 j) = ccOf (pcOf s j))
    (h5 : ∀ j, pcOf s j = 5 → pcOf s2 j = 5)
    (hb : BlockyCS cs s) : BlockyCS cs s2 := by
  obtain ⟨f, hcs, hcond⟩ := hb
  refine ⟨f, ?_, ?_⟩
  · rw [hcc f, hcc (!f)]
    exact hcs
  · intro hpos
    rw [hcc (!f)] at hpos
    exact h5 f (hcond hpos)

/-- Blockiness is preserved by a critical-section step (`pc : k → k + 1`
with `k ∈ {1, 2, 3}`): the new event lands either at the end of the
stepping process's own block or opens the second block, in which case the
first block's owner has already finished. -/
theorem blocky_cs_step (s : Sys) (i : Bool) (k : Nat) (cs : List Bool)
    (hk : k = 1 ∨ k = 2 ∨ k = 3)
    (hpc : pcOf s i = k) (hinv : LockInv s) (hb : BlockyCS cs s) :
    BlockyCS (cs ++ [i]) (setPc s i (k + 1)) := by
  obtain ⟨f, hcs, hcond⟩ := hb
  have hki : 1 ≤ k ∧ k ≤ 3 := by
    rcases hk with rfl | rfl | rfl <;> omega
  have hHi : Holds s i := by
    constructor <;> rw [hpc] <;> omega
  have hOther : ¬ Holds s (!i) := by
    rcases hinv with ⟨-, -, -, hboth⟩
    intro hH
    cases i
    · exact hboth ⟨hHi, hH⟩
    · exact hboth ⟨hH, hHi⟩
  have hle : pcOf s (!i) ≤ 5 := by
    rcases hinv with ⟨h0, h1, -, -⟩
    cases i
    · exact h1
    · exact h0
  have hor : pcOf s (!i) = 0 ∨ pcOf s (!i) = 5 := by
    simp only [Holds, not_and, not_le] at hOther
    omega
  have hccsucc : ccOf (k + 1) = ccOf k + 1 := by
    rcases hk with rfl | rfl | rfl <;> rfl
  have hnotf : (!f) ≠ f := by cases f <;> simp
  have hnoti : (!i) ≠ i := by cases i <;> simp
  by_cases hfi : f = i
  · subst hfi
    have e1 : pcOf (setPc s f (k + 1)) f = k + 1 := by
      rw [pcOf_setPc, if_pos rfl]
    have e2 : pcOf (setPc s f (k + 1)) (!f) = pcOf s (!f) := by
      rw [pcOf_setPc, if_neg hnotf]
    rcases Nat.eq_zero_or_pos (ccOf (pcOf s (!f))) with hz | hpos
    · refine ⟨f, ?_, ?_⟩
      · rw [e1, e2, hccsucc, hz, hcs, hpc, hz]
        simp [List.replicate_succ']
      · intro hpos2
        rw [e2, hz] at hpos2
        exact absurd hpos2 (by omega)
    · exact absurd (hcond hpos) (by rw [hpc]; omega)
  · have hfi2 : f = !i := by
      cases f <;> cases i
      · exact absurd rfl hfi
      · rfl
      · rfl
      · exact absurd rfl hfi
    have hif : i = !f := by
      rw [hfi2]
      cases i <;> rfl
    have e1 : pcOf (setPc s i (k + 1)) i = k + 1 := by
      rw [pcOf_setPc, if_pos rfl]
    have ef : pcOf (setPc s i (k + 1)) f = pcOf s f := by
      rw [pcOf_setPc, if_neg hfi]
    have enf : pcOf (setPc s i (k + 1)) (!f) = k + 1 := by
      rw [← hif]
      exact e1
    have eni : pcOf (setPc s i (k + 1)) (!i) = pcOf s (!i) := by
      rw [pcOf_setPc, if_neg hnoti]
    rw [← hfi2] at hor
    rcases hor with h0 | h5
    · have hccf : ccOf (pcOf s f) = 0 := by rw [h0]; rfl
      have hcc0 : ccOf (pcOf s (!f)) = 0 := by
        by_contra hne
        exact absurd (hcond (Nat.pos_of_ne_zero hne)) (by rw [h0]; omega)
      have hcck : ccOf k = 0 := by
        rw [← hpc, hif]
        exact hcc0
      have hk1 : k = 1 := by
        rcases hk with rfl | rfl | rfl
        · rfl
        · exact absurd hcck (by decide)
        · exact absurd hcck (by decide)
      subst hk1
      have hcsnil : cs = [] := by
        rw [hcs, hccf, hcc0]
        rfl
      refine ⟨i, ?_, ?_⟩
      · rw [hcsnil, e1, eni, ← hfi2, h0]
        rfl
      · intro hpos2
        rw [eni, ← hfi2, h0] at hpos2
        exact absurd hpos2 (by decide)
    · refine ⟨f, ?_, ?_⟩
      · rw [ef, enf, h5, hccsucc, hcs, h5, ← hif, hpc,
          List.append_assoc, ← List.replicate_succ']
      · intro hpos2
        rw [ef]
        exact h5

/-- Blockiness of the critical-section event list is preserved by every
enabled step. -/
theorem stepFn_blocky (s s2 : Sys) (i : Bool) (a : Act) (cs : List Bool)
    (h : stepFn s (i, a) = some s2) (hinv : LockInv s) (hb : BlockyCS cs s) :
    BlockyCS (cs ++ if isCS a then [i] else []) s2 := by
  rcases stepFn_some s s2 i a h with
    ⟨rfl, hpc, hlk, rfl⟩ | ⟨rfl, hpc, rfl⟩ | ⟨rfl, hpc, rfl⟩ | ⟨rfl, hpc, rfl⟩ |
    ⟨rfl, hpc, rfl⟩
  · show BlockyCS (cs ++ []) _
    rw [List.append_nil]
    refine blocky_of_same s _ cs ?_ ?_ hb
    · intro j
      rw [pcOf_withLock, pcOf_setPc]
      by_cases hj : j = i
      · subst hj
        rw [if_pos rfl, hpc]
        rfl
      · rw [if_neg hj]
    · intro j hj
      rw [pcOf_withLock, pcOf_setPc]
      by_cases hj2 : j = i
      · subst hj2
        rw [hpc] at hj
        exact absurd hj (by decide)
      · rw [if_neg hj2]
        exact hj
  · show BlockyCS (cs ++ [i]) (setPc s i 2)
    exact blocky_cs_step s i 1 cs (Or.inl rfl) hpc hinv hb
  · show BlockyCS (cs ++ [i]) (setPc s i 3)
    exact blocky_cs_step s i 2 cs (Or.inr (Or.inl rfl)) hpc hinv hb
  · show BlockyCS (cs ++ [i]) (setPc s i 4)
    exact blocky_cs_step s i 3 cs (Or.inr (Or.inr rfl)) hpc hinv hb
  · show BlockyCS (cs ++ []) _
    rw [List.append_nil]
    refine blocky_of_same s _ cs ?_ ?_ hb
    · intro j
      rw [pcOf_withLock, pcOf_setPc]
      by_cases hj : j = i
      · subst hj
        rw [if_pos rfl, hpc]
        rfl
      · rw [if_neg hj]
    · intro j hj
      rw [pcOf_withLock, pcOf_setPc]
      by_cases hj2 : j = i
      · subst hj2
        rw [if_pos rfl]
      · rw [if_neg hj2]
        exact hj

/-- The one-step case of `csprocs`. -/
theorem csprocs_cons (i : Bool) (a : Act) (ls : List Lbl) :
    csprocs ((i, a) :: ls) = (if isCS a then [i] else []) ++ csprocs ls := by
  by_cases hcs : isCS a <;> simp [csprocs, hcs]

/-- Running any enabled label sequence preserves the lock invariant and
keeps the accumulated critical-section event list blocky. -/
theorem run_preserves :
    ∀ (tr : List Lbl) (s s2 : Sys) (cs : List Bool),
      run s tr = some s2 → LockInv s → BlockyCS cs s →
      LockInv s2 ∧ BlockyCS (cs ++ csprocs tr) s2 := by
  intro tr
  induction tr with
  | nil =>
    intro s s2 cs h hinv hb
    simp only [run] at h
    cases Option.some.inj h
    exact ⟨hinv, by simpa [csprocs] using hb⟩
  | cons l ls ih =>
    intro s s2 cs h hinv hb
    obtain ⟨i, a⟩ := l
    cases hstep : stepFn s (i, a) with
    | none =>
      rw [run, hstep] at h
      exact absurd h (by simp)
    | some s1 =>
      rw [run, hstep] at h
      have h1 := stepFn_lockInv s s1 i a hstep hinv
      have h2 := stepFn_blocky s s1 i a cs hstep hinv hb
      have h3 := ih s1 s2 (cs ++ if isCS a then [i] else []) h h1 h2
      refine ⟨h3.1, ?_⟩
      rw [csprocs_cons, ← List.append_assoc]
      exact h3.2

/-- C1: in every interleaved execution of two concurrent `modify` calls on
the same lock location (modelled by `run` from `initSys`, where acquiring
requires the lock file to be absent — the atomic-exclusive-creation
guarantee), the critical-section events (`reload`, `mutate`, `save`) form
two contiguous blocks: one call's reload-mutate-save sequence completes
before the other's begins.  Moreover no reachable state has both
processes inside their reload-mutate-save sequence. -/
theorem modify_mutual_exclusion (tr : List Lbl) (s2 : Sys)
    (h : run initSys tr = some s2) :
    (∃ (f : Bool) (m n : Nat),
      csprocs tr = List.replicate m f ++ List.replicate n (!f)) ∧
    ¬ (Holds s2 false ∧ Holds s2 true) := by
  have h0 : LockInv initSys := by
    unfold LockInv Holds pcOf
    decide
  have hb0 : BlockyCS [] initSys := ⟨false, by decide, by decide⟩
  have h3 := run_preserves tr initSys s2 [] h h0 hb0
  obtain ⟨f, hcs, -⟩ := h3.2
  refine ⟨⟨f, _, _, by simpa using hcs⟩, ?_⟩
  rcases h3.1 with ⟨-, -, -, hboth⟩
  exact hboth

/-- C1 witness: a concrete full run — process `false` performs its whole
`modify`, then process `true` does — satisfies both conclusions. -/
theorem modify_mutual_exclusion_witness :
    (∃ (f : Bool) (m n : Nat),
      csprocs [((false : Bool), Act.acquire), (false, .reload), (false, .mutate),
        (false, .save), (false, .release), (true, .acquire), (true, .reload),
        (true, .mutate), (true, .save), (true, .release)] =
        List.replicate m f ++ List.replicate n (!f)) ∧
    ¬ (Holds ⟨false, 5, 5⟩ false ∧ Holds ⟨false, 5, 5⟩ true) :=
  modify_mutual_exclusion
    [((false : Bool), Act.acquire), (false, .reload), (false, .mutate),
      (false, .save), (false, .release), (true, .acquire), (true, .reload),
      (true, .mutate), (true, .save), (true, .release)]
    ⟨false, 5, 5⟩ (by decide)

end MsalExt
